import Mathlib

/-!
Verification of the tiling-geometry core in src/galileo/src/tile_scheme.rs.

Embedding conventions:
* Rust f64 values are modelled as exact rationals; the non-finite values NaN and
  the two infinities are modelled by the wrapper type FVal, since the code tests
  is_finite before any arithmetic and the only other place a non-finite value
  can arise is division by zero, which is modelled by fdivGt below.
* The Rust cast expression (q as i64) truncates toward zero; it is modelled by truncQ.
* The Rust f64 remainder check (a % b == 0.0) is modelled by isExactMultiple.
* Decimal constants of the source are written as integer fractions
  (for example 20037508.342787 becomes 20037508342787 / 1000000).
* BTreeSet iteration is modelled by a list in iteration order.  The Lod type and
  its Ord instance live outside src/; the in-src tests of select_lod (for
  example select_lod(7.5) giving z index 1) pin the iteration order to ascending
  resolution (finest level first), which is the order used here.
-/

namespace Galileo

/-- Modelled from the spec: the level-of-detail value type (crate lod module,
not under src/): a resolution in geographic units per pixel and an integer
level index. -/
structure Lod where
  resolution : ℚ
  z_index : ℕ
deriving DecidableEq, Repr

/-- Modelled from the spec: immutable 2D coordinate with x/y accessors
(crate primitives module, not under src/). -/
structure Point2d where
  x : ℚ
  y : ℚ
deriving DecidableEq, Repr

/-- Modelled from the spec: axis-aligned min/max rectangle with width/height
accessors (crate bounding_box module, not under src/); the constructor argument
order is (x_min, y_min, x_max, y_max) as used by the in-src tests. -/
structure BoundingBox where
  x_min : ℚ
  y_min : ℚ
  x_max : ℚ
  y_max : ℚ
deriving DecidableEq, Repr

/-- Width accessor of the bounding box. -/
def BoundingBox.width (b : BoundingBox) : ℚ := b.x_max - b.x_min

/-- Height accessor of the bounding box. -/
def BoundingBox.height (b : BoundingBox) : ℚ := b.y_max - b.y_min

/-- Vertical axis convention, from tile_scheme.rs. -/
inductive VerticalDirection where
  | TopToBottom
  | BottomToTop
deriving DecidableEq, Repr

/-- Tile index value, from tile_scheme.rs. -/
structure TileIndex where
  z : ℕ
  x : ℤ
  y : ℤ
  display_x : ℤ
deriving DecidableEq, Repr

/-- The tiling scheme record, from tile_scheme.rs.  The lods field holds the
BTreeSet contents in iteration order (ascending by the Lod ordering, that is
ascending resolution). -/
structure TileScheme where
  origin : Point2d
  bounds : BoundingBox
  lods : List Lod
  tile_width : ℕ
  tile_height : ℕ
  y_direction : VerticalDirection
  max_tile_scale : ℚ
  cycle_x : Bool

/-- An f64 argument value: a finite rational or one of the non-finite values. -/
inductive FVal where
  | fin (q : ℚ)
  | nan
  | posInf
  | negInf
deriving DecidableEq, Repr

/-- The RESOLUTION_TOLERANCE constant of tile_scheme.rs. -/
def resolutionTolerance : ℚ := 1 / 100

/-- Truncation toward zero, the semantics of the Rust cast (q as i64). -/
def truncQ (q : ℚ) : ℤ := if q < 0 then ⌈q⌉ else ⌊q⌋

/-- IEEE comparison a / b > m for finite a and finite m: when b = 0 the
quotient is +infinity (greater than the finite m) if a is positive, and
-infinity or NaN otherwise, neither of which is greater than m. -/
def fdivGt (a b m : ℚ) : Bool :=
  if b = 0 then decide (0 < a) else decide (m < a / b)

/-- The Rust test (a % b == 0.0): true exactly when b is nonzero and a is an
integer multiple of b (the f64 remainder of an exact multiple is zero; a
remainder by zero is NaN, which never compares equal to zero). -/
def isExactMultiple (a b : ℚ) : Bool :=
  if b = 0 then false else decide (a = b * (truncQ (a / b) : ℚ))

/-- The inclusive integer range lo..=hi as a list. -/
def intRange (lo hi : ℤ) : List ℤ :=
  (List.range (hi + 1 - lo).toNat).map (fun (i : ℕ) => lo + (i : ℤ))

/-- Iterator flat_map over a list, written as a plain recursive function. -/
def flatMapL (f : α → List β) : List α → List β
  | [] => []
  | a :: as => f a ++ flatMapL f as

/-- The candidate-selection loop of TileScheme::select_lod: prev_lod starts at
the first element of the BTreeSet iteration and each further level is adopted
until one has resolution * (1 - RESOLUTION_TOLERANCE) > resolution. -/
def selectScan (first : Lod) (rest : List Lod) (r : ℚ) : Lod :=
  match rest with
  | [] => first
  | l :: ls =>
    if l.resolution * (1 - resolutionTolerance) > r then first
    else selectScan l ls r

/-- TileScheme::select_lod from tile_scheme.rs. -/
def TileScheme.select_lod (s : TileScheme) (resolution : FVal) : Option Lod :=
  match resolution with
  | FVal.fin r =>
    match s.lods with
    | [] => none
    | first :: rest =>
      let prev := selectScan first rest r
      if fdivGt prev.resolution r s.max_tile_scale
          || fdivGt r prev.resolution s.max_tile_scale then none
      else some prev
  | _ => none

/-- TileScheme::min_x_index from tile_scheme.rs. -/
def TileScheme.min_x_index (s : TileScheme) (resolution : ℚ) : ℤ :=
  ⌊(s.bounds.x_min - s.origin.x) / resolution / (s.tile_width : ℚ)⌋

/-- TileScheme::max_x_index from tile_scheme.rs. -/
def TileScheme.max_x_index (s : TileScheme) (resolution : ℚ) : ℤ :=
  let pix_bound := (s.bounds.x_max - s.origin.x) / resolution
  let floored : ℚ := (⌊pix_bound⌋ : ℤ)
  if |pix_bound - floored| < 1 / 10 then truncQ (floored / (s.tile_width : ℚ)) - 1
  else truncQ (floored / (s.tile_width : ℚ))

/-- TileScheme::min_y_index from tile_scheme.rs. -/
def TileScheme.min_y_index (s : TileScheme) (resolution : ℚ) : ℤ :=
  match s.y_direction with
  | VerticalDirection.TopToBottom =>
    ⌊(s.bounds.y_min + s.origin.y) / resolution / (s.tile_height : ℚ)⌋
  | VerticalDirection.BottomToTop =>
    ⌊(s.bounds.y_min - s.origin.y) / resolution / (s.tile_height : ℚ)⌋

/-- TileScheme::max_y_index from tile_scheme.rs. -/
def TileScheme.max_y_index (s : TileScheme) (resolution : ℚ) : ℤ :=
  let pix_bound :=
    match s.y_direction with
    | VerticalDirection.TopToBottom => (s.bounds.y_max + s.origin.y) / resolution
    | VerticalDirection.BottomToTop => (s.bounds.y_max - s.origin.y) / resolution
  let floored : ℚ := (⌊pix_bound⌋ : ℤ)
  if |pix_bound - floored| < 1 / 10 then truncQ (floored / (s.tile_height : ℚ)) - 1
  else truncQ (floored / (s.tile_height : ℚ))

/-- The clamped lower horizontal index computed by TileScheme::iter_tiles
(the two let x_min bindings of the source). -/
def xMinOf (s : TileScheme) (lod : Lod) (bounding_box : BoundingBox) : ℤ :=
  max (truncQ ((bounding_box.x_min - s.origin.x) / (lod.resolution * (s.tile_width : ℚ))))
    (s.min_x_index lod.resolution)

/-- The clamped upper horizontal index computed by TileScheme::iter_tiles
(the two let x_max bindings of the source, including the x_add_one adjustment
for a right edge that is an exact multiple of the geographic tile width). -/
def xMaxOf (s : TileScheme) (lod : Lod) (bounding_box : BoundingBox) : ℤ :=
  let tile_w := lod.resolution * (s.tile_width : ℚ)
  min
    (if 0 < bounding_box.width then
      truncQ ((bounding_box.x_max - s.origin.x) / tile_w) +
        (if isExactMultiple (bounding_box.x_max - s.origin.x) tile_w then -1 else 0)
    else xMinOf s lod bounding_box)
    (s.max_x_index lod.resolution)

/-- The clamped lower vertical index computed by TileScheme::iter_tiles.  Note
that the source computes it from origin.y - bounding_box.y_max regardless of
the y_direction field. -/
def yMinOf (s : TileScheme) (lod : Lod) (bounding_box : BoundingBox) : ℤ :=
  max (truncQ ((s.origin.y - bounding_box.y_max) / (lod.resolution * (s.tile_height : ℚ))))
    (s.min_y_index lod.resolution)

/-- The clamped upper vertical index computed by TileScheme::iter_tiles,
including the y_add_one adjustment. -/
def yMaxOf (s : TileScheme) (lod : Lod) (bounding_box : BoundingBox) : ℤ :=
  let tile_h := lod.resolution * (s.tile_height : ℚ)
  min
    (if 0 < bounding_box.height then
      truncQ ((s.origin.y - bounding_box.y_min) / tile_h) +
        (if isExactMultiple (s.origin.y - bounding_box.y_min) tile_h then -1 else 0)
    else yMinOf s lod bounding_box)
    (s.max_y_index lod.resolution)

/-- TileScheme::iter_tiles from tile_scheme.rs; the lazy iterator is modelled
as the list of the tile indices it yields, in yield order. -/
def TileScheme.iter_tiles (s : TileScheme) (resolution : FVal)
    (bounding_box : BoundingBox) : Option (List TileIndex) :=
  match s.select_lod resolution with
  | none => none
  | some lod =>
    some (flatMapL
      (fun x => (intRange (yMinOf s lod bounding_box) (yMaxOf s lod bounding_box)).map
        (fun y => { z := lod.z_index, x := x, y := y, display_x := x }))
      (intRange (xMinOf s lod bounding_box) (xMaxOf s lod bounding_box)))

/-- TileScheme::tile_bbox from tile_scheme.rs. -/
def TileScheme.tile_bbox (s : TileScheme) (index : TileIndex) : Option BoundingBox :=
  match s.lods.find? (fun lod => lod.z_index == index.z) with
  | none => none
  | some lod =>
    let resolution := lod.resolution
    let x_min := s.origin.x + (index.x : ℚ) * (s.tile_width : ℚ) * resolution
    let y_min :=
      match s.y_direction with
      | VerticalDirection.TopToBottom =>
        s.origin.y - ((index.y + 1 : ℤ) : ℚ) * (s.tile_height : ℚ) * resolution
      | VerticalDirection.BottomToTop =>
        s.origin.y + (index.y : ℚ) * (s.tile_height : ℚ) * resolution
    some ⟨x_min, y_min, x_min + (s.tile_width : ℚ) * resolution,
      y_min + (s.tile_height : ℚ) * resolution⟩

/-- The TOP_RESOLUTION constant of TileScheme::web, the decimal literal
156543.03392800014 as an exact fraction. -/
def topResolution : ℚ := 15654303392800014 / 100000000000

/-- The half-world extent constant 20037508.342787 of TileScheme::web as an
exact fraction. -/
def webExtent : ℚ := 20037508342787 / 1000000

/-- The lod vector built by TileScheme::web (each level half the resolution of
the previous), as the BTreeSet iteration list: ascending resolution, which is
the reverse of construction order.  A lods_count of zero still produces the
single initial level, as in the source. -/
def webLods (lods_count : ℕ) : List Lod :=
  ((List.range (max lods_count 1)).map
    (fun i => { resolution := topResolution / 2 ^ i, z_index := i })).reverse

/-- TileScheme::web from tile_scheme.rs. -/
def TileScheme.web (lods_count : ℕ) : TileScheme where
  origin := ⟨-webExtent, webExtent⟩
  bounds := ⟨-webExtent, -webExtent, webExtent, webExtent⟩
  lods := webLods lods_count
  tile_width := 256
  tile_height := 256
  y_direction := VerticalDirection.TopToBottom
  max_tile_scale := 8
  cycle_x := true

/-- The scheme built by simple_schema() in the tests of tile_scheme.rs:
origin (0,0), bounds (0,0,2048,2048), levels with resolutions 8, 4, 2 at z
indices 0, 1, 2, tile 256 x 256, BottomToTop, max_tile_scale 2. -/
def simpleScheme : TileScheme where
  origin := ⟨0, 0⟩
  bounds := ⟨0, 0, 2048, 2048⟩
  lods := [⟨2, 2⟩, ⟨4, 1⟩, ⟨8, 0⟩]
  tile_width := 256
  tile_height := 256
  y_direction := VerticalDirection.BottomToTop
  max_tile_scale := 2
  cycle_x := false

/-- A BottomToTop scheme whose origin sits at the top edge of its bounds, used
to exhibit an enumerated tile index with negative grid y. -/
def rtScheme : TileScheme where
  origin := ⟨0, 2048⟩
  bounds := ⟨0, 0, 2048, 2048⟩
  lods := [⟨8, 0⟩]
  tile_width := 256
  tile_height := 256
  y_direction := VerticalDirection.BottomToTop
  max_tile_scale := 2
  cycle_x := false

/-- A TopToBottom scheme whose bounds extend to the left of (and symmetrically
below) the origin, so that negative grid indices are inside the global
bounds. -/
def leftScheme : TileScheme where
  origin := ⟨0, 2048⟩
  bounds := ⟨-2048, -2048, 2048, 2048⟩
  lods := [⟨8, 0⟩]
  tile_width := 256
  tile_height := 256
  y_direction := VerticalDirection.TopToBottom
  max_tile_scale := 2
  cycle_x := false

/-- A scheme whose global x_max sits 0.05 geographic units (0.05 pixels at
resolution 1) to the left of the tile edge at the origin. -/
def edgeScheme : TileScheme where
  origin := ⟨0, 0⟩
  bounds := ⟨-2048, 0, -1/20, 2048⟩
  lods := [⟨1, 0⟩]
  tile_width := 256
  tile_height := 256
  y_direction := VerticalDirection.TopToBottom
  max_tile_scale := 2
  cycle_x := false

/-! ## Helper lemmas -/

theorem truncQ_intCast (k : ℤ) : truncQ (k : ℚ) = k := by
  unfold truncQ
  split
  · exact Int.ceil_intCast k
  · exact Int.floor_intCast k

theorem truncQ_of_nonneg {q : ℚ} (h : 0 ≤ q) : truncQ q = ⌊q⌋ := by
  unfold truncQ
  rw [if_neg (not_lt.mpr h)]

theorem mem_intRange {lo hi a : ℤ} : a ∈ intRange lo hi ↔ lo ≤ a ∧ a ≤ hi := by
  simp only [intRange, List.mem_map, List.mem_range]
  constructor
  · rintro ⟨i, hlt, rfl⟩
    omega
  · rintro ⟨h1, h2⟩
    refine ⟨(a - lo).toNat, by omega, by omega⟩

theorem intRange_self_mem {lo hi : ℤ} (h : lo ≤ hi) : lo ∈ intRange lo hi :=
  mem_intRange.mpr ⟨le_refl lo, h⟩

theorem mem_flatMapL {f : α → List β} {l : List α} {b : β} :
    b ∈ flatMapL f l ↔ ∃ a ∈ l, b ∈ f a := by
  induction l with
  | nil => simp [flatMapL]
  | cons a as ih => simp [flatMapL, ih]

theorem flatMapL_ne_nil {f : α → List β} {l : List α} (h : flatMapL f l ≠ []) :
    ∃ a ∈ l, f a ≠ [] := by
  induction l with
  | nil => exact absurd rfl h
  | cons a as ih =>
    by_cases ha : f a = []
    · simp only [flatMapL, ha, List.nil_append] at h
      obtain ⟨x, hx, hfx⟩ := ih h
      exact ⟨x, List.mem_cons_of_mem a hx, hfx⟩
    · exact ⟨a, List.mem_cons_self a as, ha⟩

/-- The selection loop characterized on a pyramid held in ascending resolution
order: the result is an element of the pyramid, at least as coarse as the
starting level; it equals the starting level when every later level fails the
tolerance test; and whenever any level passes the tolerance test, the result
passes it and is at least as coarse as every passing level. -/
theorem selectScan_char (r : ℚ) (rest : List Lod) :
    ∀ first : Lod,
      List.Pairwise (fun a b => a.resolution < b.resolution) (first :: rest) →
      selectScan first rest r ∈ first :: rest ∧
      first.resolution ≤ (selectScan first rest r).resolution ∧
      ((∀ l ∈ rest, r < l.resolution * (1 - resolutionTolerance)) →
        selectScan first rest r = first) ∧
      (∀ l ∈ first :: rest, l.resolution * (1 - resolutionTolerance) ≤ r →
        l.resolution ≤ (selectScan first rest r).resolution ∧
        (selectScan first rest r).resolution * (1 - resolutionTolerance) ≤ r) := by
  induction rest with
  | nil =>
    intro first _
    refine ⟨List.mem_cons_self _ _, le_refl _, fun _ => rfl, ?_⟩
    intro l hl hP
    rw [List.mem_singleton] at hl
    subst hl
    exact ⟨le_refl _, hP⟩
  | cons l ls ih =>
    intro first hpair
    obtain ⟨hfirstlt, htail⟩ := List.pairwise_cons.mp hpair
    by_cases hbreak : l.resolution * (1 - resolutionTolerance) > r
    · have hsel : selectScan first (l :: ls) r = first := by
        simp [selectScan, hbreak]
      rw [hsel]
      refine ⟨List.mem_cons_self _ _, le_refl _, fun _ => rfl, ?_⟩
      intro m hm hP
      have hmfirst : m = first := by
        rcases List.mem_cons.mp hm with h | hm'
        · exact h
        rcases List.mem_cons.mp hm' with h | hmls
        · exfalso
          rw [h] at hP
          exact absurd hP (not_le.mpr hbreak)
        · exfalso
          have hlm : l.resolution < m.resolution :=
            (List.pairwise_cons.mp htail).1 m hmls
          have : l.resolution * (1 - resolutionTolerance) <
              m.resolution * (1 - resolutionTolerance) := by
            have htol : (0 : ℚ) < 1 - resolutionTolerance := by norm_num [resolutionTolerance]
            exact mul_lt_mul_of_pos_right hlm htol
          exact absurd (le_of_lt (lt_of_lt_of_le this hP)) (not_le.mpr hbreak)
      subst hmfirst
      exact ⟨le_refl _, hP⟩
    · have hPl : l.resolution * (1 - resolutionTolerance) ≤ r := not_lt.mp hbreak
      have hsel : selectScan first (l :: ls) r = selectScan l ls r := by
        simp [selectScan, hbreak]
      obtain ⟨ihmem, ihmono, _, ihsat⟩ := ih l htail
      have hfl : first.resolution < l.resolution := hfirstlt l (List.mem_cons_self l ls)
      rw [hsel]
      refine ⟨List.mem_cons_of_mem first ihmem, le_of_lt (lt_of_lt_of_le hfl ihmono), ?_, ?_⟩
      · intro hall
        exact absurd hPl (not_le.mpr (hall l (List.mem_cons_self l ls)))
      · intro m hm hP
        rcases List.mem_cons.mp hm with h | hm'
        · subst h
          have hsat := ihsat l (List.mem_cons_self l ls) hPl
          exact ⟨le_of_lt (lt_of_lt_of_le hfl ihmono), hsat.2⟩
        · exact ihsat m hm' hP

/-- The loop keeps the starting (finest) level when the requested resolution is
not positive, because every positive level resolution scaled by the tolerance
exceeds it. -/
theorem selectScan_nonpos {r : ℚ} (first : Lod) (rest : List Lod)
    (hpos : ∀ l ∈ rest, 0 < l.resolution) (hr : r ≤ 0) :
    selectScan first rest r = first := by
  cases rest with
  | nil => rfl
  | cons l ls =>
    have hl : 0 < l.resolution := hpos l (List.mem_cons_self l ls)
    have : l.resolution * (1 - resolutionTolerance) > r := by
      have htol : (0 : ℚ) < 1 - resolutionTolerance := by norm_num [resolutionTolerance]
      exact lt_of_le_of_lt hr (mul_pos hl htol)
    simp [selectScan, this]

/-- Unfolding of iter_tiles on a successful selection: the yielded list is
exactly the cross product of the clamped index ranges. -/
theorem iter_tiles_eq (s : TileScheme) (v : FVal) (bb : BoundingBox) (lod : Lod)
    (L : List TileIndex) (hsel : s.select_lod v = some lod)
    (hiter : s.iter_tiles v bb = some L) :
    L = flatMapL
      (fun x => (intRange (yMinOf s lod bb) (yMaxOf s lod bb)).map
        (fun y => { z := lod.z_index, x := x, y := y, display_x := x }))
      (intRange (xMinOf s lod bb) (xMaxOf s lod bb)) := by
  unfold TileScheme.iter_tiles at hiter
  rw [hsel] at hiter
  exact (Option.some_inj.mp hiter).symm

/-- Membership form of the previous lemma: every yielded tile index is built
from a pair of range members, with z and display_x fixed. -/
theorem iter_tiles_mem (s : TileScheme) (v : FVal) (bb : BoundingBox) (lod : Lod)
    (L : List TileIndex) (hsel : s.select_lod v = some lod)
    (hiter : s.iter_tiles v bb = some L) :
    ∀ t ∈ L, t.z = lod.z_index ∧ t.display_x = t.x ∧
      xMinOf s lod bb ≤ t.x ∧ t.x ≤ xMaxOf s lod bb ∧
      yMinOf s lod bb ≤ t.y ∧ t.y ≤ yMaxOf s lod bb := by
  intro t ht
  rw [iter_tiles_eq s v bb lod L hsel hiter] at ht
  obtain ⟨x, hx, hmap⟩ := mem_flatMapL.mp ht
  obtain ⟨y, hy, rfl⟩ := List.mem_map.mp hmap
  obtain ⟨hx1, hx2⟩ := mem_intRange.mp hx
  obtain ⟨hy1, hy2⟩ := mem_intRange.mp hy
  exact ⟨rfl, rfl, hx1, hx2, hy1, hy2⟩

/-! ## Claim C1: level selection rule -/

/-- C1 counterexample: the claim says select_lod returns the finest level whose
resolution scaled by 0.99 is not above the requested resolution.  On the test
scheme at requested resolution 7.5 the code returns the level with resolution 4
(z index 1) although the finer level with resolution 2 (z index 2) also
satisfies 2 * 0.99 ≤ 7.5; the finest satisfying level would moreover be
rejected by the scale gate (7.5 / 2 > max_tile_scale = 2), so the claimed rule
would give no match at all.  The walk is also finest-to-coarsest, not
coarsest-to-finest. -/
theorem claim1_counterexample :
    simpleScheme.select_lod (FVal.fin (15/2)) = some ⟨4, 1⟩ ∧
    (⟨2, 2⟩ : Lod) ∈ simpleScheme.lods ∧
    (2 : ℚ) * (1 - resolutionTolerance) ≤ 15/2 ∧ (2 : ℚ) < 4 ∧
    simpleScheme.max_tile_scale < (15/2) / 2 := by
  refine ⟨?_, ?_, ?_, ?_, ?_⟩ <;> with_unfolding_all decide

/-- C1 (amended): for a scheme whose nonempty pyramid is held in the iteration
order of the lod set (ascending resolution, finest first) with positive
resolutions, and a finite positive requested resolution r, select_lod picks as
candidate the coarsest level whose resolution scaled by
(1 - RESOLUTION_TOLERANCE) is not strictly greater than r — degenerating to the
finest level (the head of the iteration order) when every level fails that
test — and returns the candidate unless max(candidate.resolution / r,
r / candidate.resolution) > max_tile_scale, in which case it returns none. -/
theorem select_lod_characterization (s : TileScheme) (r : ℚ)
    (hsort : List.Pairwise (fun a b => a.resolution < b.resolution) s.lods)
    (hpos : ∀ l ∈ s.lods, 0 < l.resolution)
    (hne : s.lods ≠ []) (hr : 0 < r) :
    ∃ c ∈ s.lods,
      (∀ l ∈ s.lods, l.resolution * (1 - resolutionTolerance) ≤ r →
        l.resolution ≤ c.resolution ∧ c.resolution * (1 - resolutionTolerance) ≤ r) ∧
      ((∀ l ∈ s.lods, r < l.resolution * (1 - resolutionTolerance)) →
        s.lods.head? = some c) ∧
      s.select_lod (FVal.fin r) =
        (if s.max_tile_scale < c.resolution / r ∨ s.max_tile_scale < r / c.resolution
          then none else some c) := by
  obtain ⟨first, rest, hlods⟩ := List.exists_cons_of_ne_nil hne
  obtain ⟨hmem, _, hdeflt, hsat⟩ := selectScan_char r rest first (hlods ▸ hsort)
  refine ⟨selectScan first rest r, by rw [hlods]; exact hmem, ?_, ?_, ?_⟩
  · intro l hl hP
    exact hsat l (by rw [hlods] at hl; exact hl) hP
  · intro hall
    have : selectScan first rest r = first :=
      hdeflt (fun l hl => hall l (by rw [hlods]; exact List.mem_cons_of_mem _ hl))
    rw [hlods, this, List.head?]
  · have hc : 0 < (selectScan first rest r).resolution :=
      hpos _ (by rw [hlods]; exact hmem)
    simp only [TileScheme.select_lod, hlods]
    rw [fdivGt, if_neg hr.ne', fdivGt, if_neg hc.ne']
    by_cases h : s.max_tile_scale < (selectScan first rest r).resolution / r ∨
        s.max_tile_scale < r / (selectScan first rest r).resolution
    · rcases h with h1 | h1
      · simp [h1]
      · simp [h1]
    · push_neg at h
      simp [if_neg (not_lt.mpr h.1), if_neg (not_lt.mpr h.2), not_lt.mpr h.1, not_lt.mpr h.2]

/-- C1 witness: the amended characterization instantiated on the test scheme
at requested resolution 3. -/
theorem claim1_witness :
    ∃ c ∈ simpleScheme.lods,
      (∀ l ∈ simpleScheme.lods, l.resolution * (1 - resolutionTolerance) ≤ 3 →
        l.resolution ≤ c.resolution ∧ c.resolution * (1 - resolutionTolerance) ≤ 3) ∧
      ((∀ l ∈ simpleScheme.lods, 3 < l.resolution * (1 - resolutionTolerance)) →
        simpleScheme.lods.head? = some c) ∧
      simpleScheme.select_lod (FVal.fin 3) =
        (if simpleScheme.max_tile_scale < c.resolution / 3 ∨
            simpleScheme.max_tile_scale < 3 / c.resolution then none else some c) :=
  select_lod_characterization simpleScheme 3 (by with_unfolding_all decide)
    (by with_unfolding_all decide) (by with_unfolding_all decide) (by norm_num)

/-! ## Claim C2: invalid inputs to level selection -/

/-- C2 counterexample: the claim says every strictly negative requested
resolution gives no match, but on the test scheme the input -1 returns the
finest level. -/
theorem claim2_counterexample :
    simpleScheme.select_lod (FVal.fin (-1)) = some ⟨2, 2⟩ ∧
    simpleScheme.select_lod (FVal.fin (-1)) ≠ none := by
  refine ⟨?_, ?_⟩ <;> with_unfolding_all decide

/-- C2 (amended): select_lod returns none for NaN, +infinity, -infinity and
zero, and returns none for every input when the pyramid is empty; but a
strictly negative finite requested resolution instead returns the finest level
(the head of the iteration order), because both scale ratios are then negative
and hence never exceed the positive max_tile_scale. -/
theorem select_lod_invalid_inputs (s : TileScheme)
    (hpos : ∀ l ∈ s.lods, 0 < l.resolution) (hm : 0 < s.max_tile_scale) :
    s.select_lod FVal.nan = none ∧
    s.select_lod FVal.posInf = none ∧
    s.select_lod FVal.negInf = none ∧
    s.select_lod (FVal.fin 0) = none ∧
    (∀ r : ℚ, r < 0 → s.select_lod (FVal.fin r) = s.lods.head?) ∧
    (s.lods = [] → ∀ v, s.select_lod v = none) := by
  refine ⟨rfl, rfl, rfl, ?_, ?_, ?_⟩
  · cases hl : s.lods with
    | nil => simp [TileScheme.select_lod, hl]
    | cons first rest =>
      have hscan : selectScan first rest 0 = first :=
        selectScan_nonpos first rest
          (fun l hl2 => hpos l (by rw [hl]; exact List.mem_cons_of_mem _ hl2)) le_rfl
      have hfirst : 0 < first.resolution :=
        hpos first (by rw [hl]; exact List.mem_cons_self _ _)
      simp [TileScheme.select_lod, hl, hscan, fdivGt, hfirst]
  · intro r hr
    cases hl : s.lods with
    | nil => simp [TileScheme.select_lod, hl]
    | cons first rest =>
      have hscan : selectScan first rest r = first :=
        selectScan_nonpos first rest
          (fun l hl2 => hpos l (by rw [hl]; exact List.mem_cons_of_mem _ hl2)) hr.le
      have hfirst : 0 < first.resolution :=
        hpos first (by rw [hl]; exact List.mem_cons_self _ _)
      have h1 : fdivGt first.resolution r s.max_tile_scale = false := by
        rw [fdivGt, if_neg hr.ne]
        simp only [decide_eq_false_iff_not, not_lt]
        have : first.resolution / r < 0 := div_neg_of_pos_of_neg hfirst hr
        linarith
      have h2 : fdivGt r first.resolution s.max_tile_scale = false := by
        rw [fdivGt, if_neg hfirst.ne']
        simp only [decide_eq_false_iff_not, not_lt]
        have : r / first.resolution < 0 := div_neg_of_neg_of_pos hr hfirst
        linarith
      simp [TileScheme.select_lod, hl, hscan, h1, h2]
  · intro hl v
    cases v <;> simp [TileScheme.select_lod, hl]

/-- C2 witness: the amended statement instantiated on the test scheme,
including the negative input -2. -/
theorem claim2_witness :
    simpleScheme.select_lod FVal.nan = none ∧
    simpleScheme.select_lod FVal.posInf = none ∧
    simpleScheme.select_lod FVal.negInf = none ∧
    simpleScheme.select_lod (FVal.fin 0) = none ∧
    simpleScheme.select_lod (FVal.fin (-2)) = simpleScheme.lods.head? := by
  have h := select_lod_invalid_inputs simpleScheme
    (by with_unfolding_all decide) (by norm_num [simpleScheme])
  exact ⟨h.1, h.2.1, h.2.2.1, h.2.2.2.1, h.2.2.2.2.1 (-2) (by norm_num)⟩

/-! ## Claim C3: round-trip of tile_bbox against the enumeration arithmetic -/

set_option maxRecDepth 4000 in
/-- C3 demonstration of the code bug: iter_tiles computes the vertical range
with the TopToBottom formula regardless of y_direction, so on the BottomToTop
rtScheme the enumeration over the region (0,0,2048,4096) at resolution 8
yields exactly the tile index (z 0, x 0, y -1); tile_bbox maps it (using the
BottomToTop formula) to the rectangle (0,0,2048,2048); feeding the corner
(0,0) back through the enumeration arithmetic at that level reproduces
grid x = 0, but both vertical enumeration formulas (the raw truncation and the
exact-boundary-adjusted one) give 1 and 0 instead of -1, so the round-trip
fails for BottomToTop. -/
theorem claim3_code_bug :
    rtScheme.iter_tiles (FVal.fin 8) ⟨0, 0, 2048, 4096⟩ = some [⟨0, 0, -1, 0⟩] ∧
    rtScheme.tile_bbox ⟨0, 0, -1, 0⟩ = some ⟨0, 0, 2048, 2048⟩ ∧
    truncQ (((0 : ℚ) - rtScheme.origin.x) / (8 * 256)) = 0 ∧
    truncQ ((rtScheme.origin.y - (0 : ℚ)) / (8 * 256)) = 1 ∧
    truncQ ((rtScheme.origin.y - (0 : ℚ)) / (8 * 256)) - 1 = 0 ∧
    (-1 : ℤ) ≠ 1 ∧ (-1 : ℤ) ≠ 0 := by
  refine ⟨?_, ?_, ?_, ?_, ?_, ?_, ?_⟩ <;> with_unfolding_all decide

/-! ## Claim C4: boundary exactness -/

/-- C4 counterexample: on the edgeScheme the global x pixel bound -1/20 (that
is -0.05 pixels at resolution 1) lies within 0.1 pixels of the tile edge at
pixel 0 * tile_width, yet max_x_index is 0 rather than the boundary column
index minus one (-1): the truncating cast rounds the negative quotient toward
zero, so the zero-width tile beyond the bound is not excluded. -/
theorem claim4_counterexample :
    |(edgeScheme.bounds.x_max - edgeScheme.origin.x) / 1 - ((0 : ℤ) : ℚ) * (256 : ℚ)| <
      1/10 ∧
    edgeScheme.max_x_index 1 = 0 ∧ edgeScheme.max_x_index 1 ≠ (0 : ℤ) - 1 := by
  refine ⟨?_, ?_, ?_⟩ <;> with_unfolding_all decide

/-- C4 (amended): part one — during a successful enumeration over a region of
positive width whose right edge is exactly k geographic tile widths from the
origin, no yielded tile index has grid x beyond column k - 1 (the exact
multiple adjustment subtracts one and clamping can only lower the bound).
Part two — the global maximum index clamp maps a pixel bound within 0.1 pixels
of the tile-edge pixel coordinate k * tile_width to index k - 1, provided the
pixel bound is nonnegative (for a negative pixel bound just below a tile edge
the truncating cast keeps the next index instead, see the counterexample). -/
theorem boundary_exclusion (s : TileScheme) :
    (∀ (r : ℚ) (bb : BoundingBox) (lod : Lod) (L : List TileIndex) (k : ℤ),
      s.select_lod (FVal.fin r) = some lod →
      0 < lod.resolution → 0 < s.tile_width → 0 < bb.width →
      bb.x_max - s.origin.x = (k : ℚ) * (lod.resolution * (s.tile_width : ℚ)) →
      s.iter_tiles (FVal.fin r) bb = some L →
      ∀ t ∈ L, t.x ≤ k - 1) ∧
    (∀ (r : ℚ) (k : ℤ),
      0 < s.tile_width →
      0 ≤ (s.bounds.x_max - s.origin.x) / r →
      |(s.bounds.x_max - s.origin.x) / r - (k : ℚ) * (s.tile_width : ℚ)| < 1/10 →
      s.max_x_index r = k - 1) := by
  constructor
  · intro r bb lod L k hsel hres htw hw hmul hiter t ht
    have htwQ : (0:ℚ) < lod.resolution * (s.tile_width : ℚ) :=
      mul_pos hres (by exact_mod_cast htw)
    have hdiv : (bb.x_max - s.origin.x) / (lod.resolution * (s.tile_width : ℚ)) = (k:ℚ) := by
      rw [hmul]
      exact mul_div_cancel_right₀ _ htwQ.ne'
    have hexact : isExactMultiple (bb.x_max - s.origin.x)
        (lod.resolution * (s.tile_width : ℚ)) = true := by
      rw [isExactMultiple, if_neg htwQ.ne', decide_eq_true_eq, hdiv, truncQ_intCast, hmul]
      ring
    have hx := (iter_tiles_mem s (FVal.fin r) bb lod L hsel hiter t ht).2.2.2.1
    have hxmax : xMaxOf s lod bb ≤ k - 1 := by
      simp only [xMaxOf]
      refine le_trans (min_le_left _ _) ?_
      rw [if_pos hw, hexact, hdiv, truncQ_intCast]
      simp
    exact le_trans hx hxmax
  · intro r k htw hpix habs
    have htwQ0 : (0:ℚ) < (s.tile_width : ℚ) := by exact_mod_cast htw
    have htwQ1 : (1:ℚ) ≤ (s.tile_width : ℚ) := by exact_mod_cast htw
    obtain ⟨hlow, hhigh⟩ := abs_lt.mp habs
    rcases le_or_lt ((k:ℚ) * (s.tile_width : ℚ)) ((s.bounds.x_max - s.origin.x) / r)
      with h1 | h1
    · have hfl : ⌊(s.bounds.x_max - s.origin.x) / r⌋ = k * (s.tile_width : ℤ) := by
        rw [Int.floor_eq_iff]
        constructor
        · push_cast
          linarith
        · push_cast
          linarith
      have hcast : (((k * (s.tile_width : ℤ)) : ℤ) : ℚ) / (s.tile_width : ℚ) = (k:ℚ) := by
        push_cast
        exact mul_div_cancel_right₀ _ htwQ0.ne'
      simp only [TileScheme.max_x_index]
      rw [hfl]
      rw [if_pos (by push_cast; rw [abs_lt]; constructor <;> linarith)]
      rw [hcast, truncQ_intCast]
    · have hk : (0:ℚ) < (k:ℚ) := by
        by_contra hc
        push_neg at hc
        have : (k:ℚ) * (s.tile_width : ℚ) ≤ 0 := mul_nonpos_of_nonpos_of_nonneg hc htwQ0.le
        linarith
      have hk1 : (1:ℤ) ≤ k := by
        have : (0:ℤ) < k := by exact_mod_cast hk
        omega
      have hkQ1 : (1:ℚ) ≤ (k:ℚ) := by exact_mod_cast hk1
      have honele : (1:ℚ) * 1 ≤ (k:ℚ) * (s.tile_width : ℚ) :=
        mul_le_mul hkQ1 htwQ1 (by norm_num) (le_trans (by norm_num) hkQ1)
      have hfl : ⌊(s.bounds.x_max - s.origin.x) / r⌋ = k * (s.tile_width : ℤ) - 1 := by
        rw [Int.floor_eq_iff]
        constructor
        · push_cast
          linarith
        · push_cast
          linarith
      have hnum0 : (0:ℚ) ≤ (((k * (s.tile_width : ℤ) - 1) : ℤ) : ℚ) := by
        push_cast
        linarith
      simp only [TileScheme.max_x_index]
      rw [hfl]
      rw [if_neg ?side]
      case side =>
        push_cast
        rw [abs_lt]
        push_neg
        intro _
        linarith
      rw [truncQ_of_nonneg (div_nonneg hnum0 htwQ0.le)]
      rw [Int.floor_eq_iff]
      constructor
      · rw [le_div_iff₀ htwQ0]
        push_cast
        have hexpand : ((k:ℚ) - 1) * (s.tile_width : ℚ) =
          (k:ℚ) * (s.tile_width : ℚ) - (s.tile_width : ℚ) := by ring
        linarith
      · rw [div_lt_iff₀ htwQ0]
        push_cast
        have hexpand : ((k:ℚ) - 1 + 1) * (s.tile_width : ℚ) =
          (k:ℚ) * (s.tile_width : ℚ) := by ring
        linarith

set_option maxRecDepth 4000 in
/-- C4 witness: part one instantiated on the test scheme at resolution 8 over
the region (0,-2048,2048,0), whose right edge is exactly one tile width from
the origin, and part two at the pixel bound 256 = 1 * 256. -/
theorem claim4_witness :
    (∀ t ∈ [(⟨0, 0, 0, 0⟩ : TileIndex)], t.x ≤ (1 : ℤ) - 1) ∧
    simpleScheme.max_x_index 8 = 1 - 1 := by
  have h := boundary_exclusion simpleScheme
  constructor
  · intro t ht
    exact h.1 8 ⟨0, -2048, 2048, 0⟩ ⟨8, 0⟩ [⟨0, 0, 0, 0⟩] 1
      (by with_unfolding_all decide) (by norm_num) (by norm_num [simpleScheme])
      (by norm_num [BoundingBox.width]) (by norm_num [simpleScheme])
      (by with_unfolding_all decide) t ht
  · exact h.2 8 1 (by norm_num [simpleScheme]) (by norm_num [simpleScheme])
      (by norm_num [simpleScheme])

/-! ## Claim C5: the lower horizontal index formula -/

set_option maxRecDepth 4000 in
/-- C5 counterexample: on the leftScheme (bounds extending one tile to the
left of the origin) the enumeration at resolution 8 over the region
(-100,0,2048,2048) succeeds and yields exactly the tile with grid x = 0,
although the claimed floor-based formula gives max(floor(-100/2048), -1) = -1:
the code truncates the negative quotient toward zero instead of flooring. -/
theorem claim5_counterexample :
    leftScheme.iter_tiles (FVal.fin 8) ⟨-100, 0, 2048, 2048⟩ = some [⟨0, 0, 0, 0⟩] ∧
    max ⌊((-100 : ℚ) - leftScheme.origin.x) / (8 * 256)⌋ (leftScheme.min_x_index 8) = -1 ∧
    ((0 : ℤ) ≠ -1) := by
  refine ⟨?_, ?_, ?_⟩ <;> with_unfolding_all decide

/-- C5 (amended): during a successful enumeration the lower horizontal index
is max(trunc((region.x_min - origin.x) / tile_w), min_x_index at the selected
resolution), where trunc rounds toward zero (the semantics of the Rust cast),
not the mathematical floor: every yielded tile has grid x at least this value,
and some yielded tile attains it whenever the enumeration yields anything. -/
theorem iter_lower_x (s : TileScheme) (r : ℚ) (bb : BoundingBox) (lod : Lod)
    (L : List TileIndex) (hsel : s.select_lod (FVal.fin r) = some lod)
    (hiter : s.iter_tiles (FVal.fin r) bb = some L) :
    (∀ t ∈ L,
      max (truncQ ((bb.x_min - s.origin.x) / (lod.resolution * (s.tile_width : ℚ))))
        (s.min_x_index lod.resolution) ≤ t.x) ∧
    (L ≠ [] → ∃ t ∈ L,
      t.x = max (truncQ ((bb.x_min - s.origin.x) / (lod.resolution * (s.tile_width : ℚ))))
        (s.min_x_index lod.resolution)) := by
  constructor
  · intro t ht
    exact (iter_tiles_mem s (FVal.fin r) bb lod L hsel hiter t ht).2.2.1
  · intro hne
    rw [iter_tiles_eq s (FVal.fin r) bb lod L hsel hiter] at hne ⊢
    obtain ⟨x, hx, hfx⟩ := flatMapL_ne_nil hne
    have hyne : intRange (yMinOf s lod bb) (yMaxOf s lod bb) ≠ [] := by
      intro h
      rw [h] at hfx
      exact hfx rfl
    obtain ⟨y, hy⟩ := List.exists_mem_of_ne_nil _ hyne
    obtain ⟨hx1, hx2⟩ := mem_intRange.mp hx
    refine ⟨⟨lod.z_index, xMinOf s lod bb, y, xMinOf s lod bb⟩, ?_, rfl⟩
    exact mem_flatMapL.mpr ⟨xMinOf s lod bb, intRange_self_mem (le_trans hx1 hx2),
      List.mem_map.mpr ⟨y, hy, rfl⟩⟩

set_option maxRecDepth 4000 in
/-- C5 witness: the amended statement instantiated on the test scheme
enumeration at resolution 8 over (0,-2048,2048,0), which yields the single
tile (z 0, x 0, y 0) whose grid x attains the lower index 0. -/
theorem claim5_witness :
    (∀ t ∈ [(⟨0, 0, 0, 0⟩ : TileIndex)],
      max (truncQ (((⟨0, -2048, 2048, 0⟩ : BoundingBox).x_min - simpleScheme.origin.x) /
        ((⟨8, 0⟩ : Lod).resolution * (simpleScheme.tile_width : ℚ))))
        (simpleScheme.min_x_index (⟨8, 0⟩ : Lod).resolution) ≤ t.x) ∧
    ([(⟨0, 0, 0, 0⟩ : TileIndex)] ≠ [] → ∃ t ∈ [(⟨0, 0, 0, 0⟩ : TileIndex)],
      t.x = max (truncQ (((⟨0, -2048, 2048, 0⟩ : BoundingBox).x_min - simpleScheme.origin.x) /
        ((⟨8, 0⟩ : Lod).resolution * (simpleScheme.tile_width : ℚ))))
        (simpleScheme.min_x_index (⟨8, 0⟩ : Lod).resolution)) :=
  iter_lower_x simpleScheme 8 ⟨0, -2048, 2048, 0⟩ ⟨8, 0⟩ [⟨0, 0, 0, 0⟩]
    (by with_unfolding_all decide) (by with_unfolding_all decide)

/-! ## Claim C6: enumeration failure versus empty result -/

set_option maxRecDepth 4000 in
/-- C6 demonstration of the code bug: the region (-100,-100,-50,-50) lies
entirely outside the global bounds (0,0,2048,2048) of the test scheme, yet
enumeration at resolution 8 yields one tile (z 0, x 0, y 0) instead of the
empty sequence: the truncating casts round the negative quotients toward zero,
keeping index 0 inside the clamped ranges.  The in-src test
iter_tiles_outside_of_bbox asserts a count of zero for exactly this input, so
the claim captures the intent and the code is wrong. -/
theorem claim6_code_bug :
    simpleScheme.iter_tiles (FVal.fin 8) ⟨-100, -100, -50, -50⟩ =
      some [⟨0, 0, 0, 0⟩] ∧
    (-50 : ℚ) < simpleScheme.bounds.x_min ∧ (-50 : ℚ) < simpleScheme.bounds.y_min ∧
    ([(⟨0, 0, 0, 0⟩ : TileIndex)] : List TileIndex) ≠ [] := by
  refine ⟨?_, ?_, ?_, ?_⟩ <;> with_unfolding_all decide

/-! ## Claim C7: invariants of the yielded tile indices -/

/-- C7: every successful enumeration yields only tile indices whose z is the
selected level index, whose display_x equals grid x at construction, and whose
grid coordinates lie within the clamped ranges and hence within the global
index bounds implied by the scheme bounds at the selected resolution. -/
theorem iter_tiles_invariants (s : TileScheme) (r : FVal) (bb : BoundingBox)
    (lod : Lod) (L : List TileIndex) (hsel : s.select_lod r = some lod)
    (hiter : s.iter_tiles r bb = some L) :
    ∀ t ∈ L, t.z = lod.z_index ∧ t.display_x = t.x ∧
      s.min_x_index lod.resolution ≤ t.x ∧ t.x ≤ s.max_x_index lod.resolution ∧
      s.min_y_index lod.resolution ≤ t.y ∧ t.y ≤ s.max_y_index lod.resolution := by
  intro t ht
  obtain ⟨hz, hd, hx1, hx2, hy1, hy2⟩ := iter_tiles_mem s r bb lod L hsel hiter t ht
  simp only [xMinOf, xMaxOf, yMinOf, yMaxOf] at hx1 hx2 hy1 hy2
  refine ⟨hz, hd, ?_, ?_, ?_, ?_⟩
  · exact le_trans (le_max_right _ _) hx1
  · exact le_trans hx2 (min_le_right _ _)
  · exact le_trans (le_max_right _ _) hy1
  · exact le_trans hy2 (min_le_right _ _)

set_option maxRecDepth 4000 in
/-- C7 witness: the invariants instantiated on the test scheme enumeration at
resolution 8 over (0,-2048,2048,0), which yields the single tile
(z 0, x 0, y 0). -/
theorem claim7_witness :
    (⟨0, 0, 0, 0⟩ : TileIndex).z = (⟨8, 0⟩ : Lod).z_index ∧
    (⟨0, 0, 0, 0⟩ : TileIndex).display_x = (⟨0, 0, 0, 0⟩ : TileIndex).x ∧
    simpleScheme.min_x_index (⟨8, 0⟩ : Lod).resolution ≤ (⟨0, 0, 0, 0⟩ : TileIndex).x ∧
    (⟨0, 0, 0, 0⟩ : TileIndex).x ≤ simpleScheme.max_x_index (⟨8, 0⟩ : Lod).resolution ∧
    simpleScheme.min_y_index (⟨8, 0⟩ : Lod).resolution ≤ (⟨0, 0, 0, 0⟩ : TileIndex).y ∧
    (⟨0, 0, 0, 0⟩ : TileIndex).y ≤ simpleScheme.max_y_index (⟨8, 0⟩ : Lod).resolution :=
  iter_tiles_invariants simpleScheme (FVal.fin 8) ⟨0, -2048, 2048, 0⟩ ⟨8, 0⟩
    [⟨0, 0, 0, 0⟩] (by with_unfolding_all decide) (by with_unfolding_all decide)
    ⟨0, 0, 0, 0⟩ (List.mem_singleton_self _)

/-! ## Claim C8: the six-tile concrete scenario -/

set_option maxRecDepth 4000 in
/-- C8 demonstration of the code bug: on the concrete scenario scheme the
enumeration at resolution 2 over the region (200,700,1200,1100) yields the
empty list, not the 6 tiles with x in 0..2 and y in 1..2 asserted by the spec
and by the in-src test iter_indices_part_bbox: iter_tiles derives the vertical
range from origin.y - region.y with TopToBottom arithmetic although the scheme
is BottomToTop, so the raw vertical range [-2,-1] clamped against [0,3] is
empty. -/
theorem claim8_code_bug :
    simpleScheme.iter_tiles (FVal.fin 2) ⟨200, 700, 1200, 1100⟩ = some [] ∧
    ([] : List TileIndex).length = 0 ∧ (0 : ℕ) ≠ 6 := by
  refine ⟨?_, ?_, ?_⟩ <;> with_unfolding_all decide

/-! ## Claim C9: the standard global scheme factory -/

/-- C9: for every positive lods_count n the web factory produces the scheme
with origin at the top-left corner (-20037508.342787, 20037508.342787) of the
square world extent, n levels indexed 0..n-1 with level 0 at TOP_RESOLUTION
and each subsequent level at exactly half the previous resolution, 256 x 256
pixel tiles, TopToBottom direction, max_tile_scale 8 and cycle_x true. -/
theorem web_spec (n : ℕ) (h : 1 ≤ n) :
    (TileScheme.web n).origin =
      ⟨-(20037508342787 / 1000000 : ℚ), (20037508342787 / 1000000 : ℚ)⟩ ∧
    (TileScheme.web n).lods.length = n ∧
    (∀ i, i < n → (⟨topResolution / 2 ^ i, i⟩ : Lod) ∈ (TileScheme.web n).lods) ∧
    (∀ i, i + 1 < n → topResolution / 2 ^ (i + 1) = (topResolution / 2 ^ i) / 2) ∧
    (TileScheme.web n).tile_width = 256 ∧
    (TileScheme.web n).tile_height = 256 ∧
    (TileScheme.web n).y_direction = VerticalDirection.TopToBottom ∧
    (TileScheme.web n).max_tile_scale = 8 ∧
    (TileScheme.web n).cycle_x = true := by
  refine ⟨rfl, ?_, ?_, ?_, rfl, rfl, rfl, rfl, rfl⟩
  · simp only [TileScheme.web, webLods, List.length_reverse, List.length_map,
      List.length_range]
    omega
  · intro i hi
    simp only [TileScheme.web, webLods, List.mem_reverse, List.mem_map,
      List.mem_range]
    exact ⟨i, by omega, rfl⟩
  · intro i _
    rw [pow_succ, ← div_div]

/-- C9 witness: the factory specification instantiated at lods_count 3. -/
theorem claim9_witness :
    (TileScheme.web 3).origin =
      ⟨-(20037508342787 / 1000000 : ℚ), (20037508342787 / 1000000 : ℚ)⟩ ∧
    (TileScheme.web 3).lods.length = 3 ∧
    (∀ i, i < 3 → (⟨topResolution / 2 ^ i, i⟩ : Lod) ∈ (TileScheme.web 3).lods) ∧
    (∀ i, i + 1 < 3 → topResolution / 2 ^ (i + 1) = (topResolution / 2 ^ i) / 2) ∧
    (TileScheme.web 3).tile_width = 256 ∧
    (TileScheme.web 3).tile_height = 256 ∧
    (TileScheme.web 3).y_direction = VerticalDirection.TopToBottom ∧
    (TileScheme.web 3).max_tile_scale = 8 ∧
    (TileScheme.web 3).cycle_x = true :=
  web_spec 3 (by norm_num)

/-! ## Claim C10: TopToBottom vertical clamp formulas -/

/-- C10: for a TopToBottom scheme the vertical clamp bounds are computed from
the sums of the bound and the origin y coordinate — the minimum index is
floor((bounds.y_min + origin.y) / r / tile_height) and the maximum index is
derived from the pixel bound (bounds.y_max + origin.y) / r with the 0.1 pixel
edge snap — and when the vertical bounds are symmetric about zero these sums
equal the downward distances origin.y - bounds.y_max and
origin.y - bounds.y_min, so the two formulations coincide exactly, as in the
standard global scheme. -/
theorem y_index_sum_form (s : TileScheme) (r : ℚ)
    (hdir : s.y_direction = VerticalDirection.TopToBottom)
    (hsym : s.bounds.y_min = -s.bounds.y_max) :
    s.min_y_index r = ⌊(s.bounds.y_min + s.origin.y) / r / (s.tile_height : ℚ)⌋ ∧
    s.max_y_index r =
      (if |(s.bounds.y_max + s.origin.y) / r -
          ((⌊(s.bounds.y_max + s.origin.y) / r⌋ : ℤ) : ℚ)| < 1 / 10 then
        truncQ (((⌊(s.bounds.y_max + s.origin.y) / r⌋ : ℤ) : ℚ) / (s.tile_height : ℚ)) - 1
      else truncQ (((⌊(s.bounds.y_max + s.origin.y) / r⌋ : ℤ) : ℚ) / (s.tile_height : ℚ))) ∧
    s.min_y_index r = ⌊(s.origin.y - s.bounds.y_max) / r / (s.tile_height : ℚ)⌋ ∧
    s.max_y_index r =
      (if |(s.origin.y - s.bounds.y_min) / r -
          ((⌊(s.origin.y - s.bounds.y_min) / r⌋ : ℤ) : ℚ)| < 1 / 10 then
        truncQ (((⌊(s.origin.y - s.bounds.y_min) / r⌋ : ℤ) : ℚ) / (s.tile_height : ℚ)) - 1
      else truncQ (((⌊(s.origin.y - s.bounds.y_min) / r⌋ : ℤ) : ℚ) / (s.tile_height : ℚ))) := by
  have hmin : s.bounds.y_min + s.origin.y = s.origin.y - s.bounds.y_max := by
    rw [hsym]
    ring
  have hmax : s.origin.y - s.bounds.y_min = s.bounds.y_max + s.origin.y := by
    rw [hsym]
    ring
  have h1 : s.min_y_index r = ⌊(s.bounds.y_min + s.origin.y) / r / (s.tile_height : ℚ)⌋ := by
    simp only [TileScheme.min_y_index, hdir]
  have h2 : s.max_y_index r =
      (if |(s.bounds.y_max + s.origin.y) / r -
          ((⌊(s.bounds.y_max + s.origin.y) / r⌋ : ℤ) : ℚ)| < 1 / 10 then
        truncQ (((⌊(s.bounds.y_max + s.origin.y) / r⌋ : ℤ) : ℚ) / (s.tile_height : ℚ)) - 1
      else truncQ (((⌊(s.bounds.y_max + s.origin.y) / r⌋ : ℤ) : ℚ) / (s.tile_height : ℚ))) := by
    simp only [TileScheme.max_y_index, hdir]
  refine ⟨h1, h2, ?_, ?_⟩
  · rw [h1, hmin]
  · rw [hmax]
    exact h2

/-- C10 witness: instantiated on the scheme built by the web factory with one
level, at requested resolution 8. -/
theorem claim10_witness :
    (TileScheme.web 1).min_y_index 8 =
      ⌊((TileScheme.web 1).bounds.y_min + (TileScheme.web 1).origin.y) / 8 /
        ((TileScheme.web 1).tile_height : ℚ)⌋ ∧
    (TileScheme.web 1).max_y_index 8 =
      (if |((TileScheme.web 1).bounds.y_max + (TileScheme.web 1).origin.y) / 8 -
          ((⌊((TileScheme.web 1).bounds.y_max + (TileScheme.web 1).origin.y) / 8⌋ : ℤ) : ℚ)| <
          1 / 10 then
        truncQ (((⌊((TileScheme.web 1).bounds.y_max + (TileScheme.web 1).origin.y) / 8⌋ : ℤ) : ℚ) /
          ((TileScheme.web 1).tile_height : ℚ)) - 1
      else
        truncQ (((⌊((TileScheme.web 1).bounds.y_max + (TileScheme.web 1).origin.y) / 8⌋ : ℤ) : ℚ) /
          ((TileScheme.web 1).tile_height : ℚ))) ∧
    (TileScheme.web 1).min_y_index 8 =
      ⌊((TileScheme.web 1).origin.y - (TileScheme.web 1).bounds.y_max) / 8 /
        ((TileScheme.web 1).tile_height : ℚ)⌋ ∧
    (TileScheme.web 1).max_y_index 8 =
      (if |((TileScheme.web 1).origin.y - (TileScheme.web 1).bounds.y_min) / 8 -
          ((⌊((TileScheme.web 1).origin.y - (TileScheme.web 1).bounds.y_min) / 8⌋ : ℤ) : ℚ)| <
          1 / 10 then
        truncQ (((⌊((TileScheme.web 1).origin.y - (TileScheme.web 1).bounds.y_min) / 8⌋ : ℤ) : ℚ) /
          ((TileScheme.web 1).tile_height : ℚ)) - 1
      else
        truncQ (((⌊((TileScheme.web 1).origin.y - (TileScheme.web 1).bounds.y_min) / 8⌋ : ℤ) : ℚ) /
          ((TileScheme.web 1).tile_height : ℚ))) :=
  y_index_sum_form (TileScheme.web 1) 8 rfl rfl

end Galileo
